import Mathlib

/-!
Verification of the pdf_chopper TOC-to-output pipeline.

The repository sources at hand contain the React frontend (manual TOC
editor, workflow state).  The backend core (`app/core/pdf_loader.py`,
`toc_extractor.py`, `splitter.py`, `file_organizer.py` and the FastAPI
job engine) is referenced by the frontend and by `progress.md` but its
code is not among the sources, so those components are modelled from the
specification; each such definition carries a doc comment starting with
`Modelled from the spec:`.  Frontend editor logic (handleSave,
handleDeleteNode, handleAddNode, getLastUsedPage) is translated directly
from the TypeScript sources.
-/

/-- A node of the standard (core) table of contents.  Pages are 1-based
absolute PDF page numbers; `end_page = none` means unresolved. -/
structure TOCNode where
  title : String
  number : String
  start_page : Nat
  end_page : Option Nat
  children : List TOCNode
deriving Repr

/-- A TOC tree: root-level ordered chapter list plus the content-start
offset used by manual TOCs. -/
structure TOCTree where
  chapters : List TOCNode
  content_start_page : Nat
deriving Repr

mutual

/-- Helper for `forestInd`: the induction hypothesis for the children of
a single node. -/
def nodeInd (P : List TOCNode → Prop) (h0 : P [])
    (h1 : ∀ (n : TOCNode) (rest : List TOCNode),
      P n.children → P rest → P (n :: rest)) :
    ∀ n : TOCNode, P n.children
  | ⟨_, _, _, _, cs⟩ => forestInd P h0 h1 cs

/-- Induction over forests of `TOCNode`: to prove a property of every
node list it suffices to prove it for `[]` and to propagate it from the
children of the head and from the tail. -/
def forestInd (P : List TOCNode → Prop) (h0 : P [])
    (h1 : ∀ (n : TOCNode) (rest : List TOCNode),
      P n.children → P rest → P (n :: rest)) :
    ∀ ns : List TOCNode, P ns
  | [] => h0
  | n :: rest => h1 n rest (nodeInd P h0 h1 n) (forestInd P h0 h1 rest)

end

mutual

/-- Modelled from the spec: RangeResolver (§4.3) acting on one node;
the backend module (`app/core`) is not among the given sources.
`bound` is the inherited end bound (the parent's resolved end, or
`total_pages` at top level); `clamped` is true for child lists, where
rule 4 clamps a child's end down to the parent's end; `nextStart` is
the following sibling's start page, if any.  Rule 1: a non-last sibling
with a null end gets `next_sibling.start_page - 1`; rule 2: a last
sibling with a null end inherits `bound`; rule 3: an end below the
start is raised to the start (degenerate single-page section);
rule 4: a child's end is clamped down to the parent's end. -/
def resolveNode (bound : Nat) (clamped : Bool) (nextStart : Option Nat) (n : TOCNode) : TOCNode :=
  match n with
  | ⟨t, num, s, e, cs⟩ =>
    let e0 := match e with
      | some v => v
      | none => match nextStart with
        | some m => m - 1
        | none => bound
    let e1 := max s e0
    let e2 := if clamped then min e1 bound else e1
    ⟨t, num, s, some e2, resolveList e2 true cs⟩

/-- Modelled from the spec: RangeResolver (§4.3) acting on a sibling
list in document order. -/
def resolveList (bound : Nat) (clamped : Bool) (ns : List TOCNode) : List TOCNode :=
  match ns with
  | [] => []
  | n :: rest =>
    resolveNode bound clamped (rest.head?.map TOCNode.start_page) n ::
      resolveList bound clamped rest

end

/-- Modelled from the spec: `resolve(tree, total_pages)` (§4.3), the
pure entry point; fails with `EmptyTree` on an empty root list. -/
def resolve (t : TOCTree) (total : Nat) : Except String TOCTree :=
  if t.chapters.isEmpty then .error "EmptyTree"
  else .ok { t with chapters := resolveList total false t.chapters }

mutual

/-- The claimed output property at one node: `lo <= start_page`,
the end is set with `start_page <= end_page <= hi`, and the children
lie inside the node's own range. -/
def okNode (lo hi : Nat) (n : TOCNode) : Bool :=
  match n with
  | ⟨_, _, s, e, cs⟩ =>
    match e with
    | some v =>
      decide (lo ≤ s) && decide (s ≤ v) && decide (v ≤ hi) && okForest s v cs
    | none => false

/-- The claimed output property for resolved trees: every node has
`lo <= start_page <= end_page <= hi`, and every child list is bounded
by its parent's own range. -/
def okForest (lo hi : Nat) (ns : List TOCNode) : Bool :=
  match ns with
  | [] => true
  | n :: rest => okNode lo hi n && okForest lo hi rest

end

mutual

/-- Well-formedness of a resolver input node relative to bounds
`[lo, hi]` and the following sibling's start: the start lies in
`[lo, hi]`, a preset end lies in `[start, hi]`, and the children are
well formed inside the range the resolver will assign to this node
(`e2` below reproduces the resolver's computation for an in-bounds
sibling list). -/
def wfNode (lo hi : Nat) (nextStart : Option Nat) (n : TOCNode) : Bool :=
  match n with
  | ⟨_, _, s, e, cs⟩ =>
    let e0 := match e with
      | some v => v
      | none => match nextStart with
        | some m => m - 1
        | none => hi
    let e2 := max s e0
    decide (lo ≤ s) && decide (s ≤ hi) &&
    (match e with
     | some v => decide (s ≤ v) && decide (v ≤ hi)
     | none => true) &&
    wfSibs s e2 cs

/-- Well-formedness of a resolver input sibling list relative to
bounds `[lo, hi]`. -/
def wfSibs (lo hi : Nat) (ns : List TOCNode) : Bool :=
  match ns with
  | [] => true
  | n :: rest =>
    wfNode lo hi (rest.head?.map TOCNode.start_page) n && wfSibs lo hi rest

end

mutual

/-- One node of a tree whose ends are all set and mutually consistent:
the end is at least the start, stays below the enclosing bound (when
`cb = some b`), and the children are consistent below this node's
end. -/
def fcNode (cb : Option Nat) (n : TOCNode) : Bool :=
  match n with
  | ⟨_, _, s, e, cs⟩ =>
    match e with
    | none => false
    | some v =>
      decide (s ≤ v) &&
      (match cb with
       | some b => decide (v ≤ b)
       | none => true) &&
      fullyConsistent (some v) cs

/-- A sibling list in which every end is already set, is at least the
start, and stays below the enclosing bound; on such input the resolver
is the identity. -/
def fullyConsistent (cb : Option Nat) (ns : List TOCNode) : Bool :=
  match ns with
  | [] => true
  | n :: rest => fcNode cb n && fullyConsistent cb rest

end

mutual

/-- Preorder `end_page` fields below one node. -/
def nodeEnds (n : TOCNode) : List (Option Nat) :=
  match n with
  | ⟨_, _, _, e, cs⟩ => e :: forestEnds cs

/-- Preorder flattening of the `end_page` fields of a forest; used to
distinguish trees without deciding equality of whole trees. -/
def forestEnds (ns : List TOCNode) : List (Option Nat) :=
  match ns with
  | [] => []
  | n :: rest => nodeEnds n ++ forestEnds rest

end

example :
    resolveList 20 false
      [⟨"Ch1", "1", 1, none, [⟨"1.1", "1.1", 3, none, []⟩]⟩,
       ⟨"Ch2", "2", 10, none, []⟩] =
      [⟨"Ch1", "1", 1, some 9, [⟨"1.1", "1.1", 3, some 9, []⟩]⟩,
       ⟨"Ch2", "2", 10, some 20, []⟩] := by rfl

example :
    wfSibs 1 20
      [⟨"Ch1", "1", 1, none, [⟨"1.1", "1.1", 3, none, []⟩]⟩,
       ⟨"Ch2", "2", 10, none, []⟩] = true := by rfl

example : okForest 1 3 (resolveList 3 false [⟨"A", "1", 5, none, []⟩]) = false := by
  rfl

example :
    fullyConsistent none
      [⟨"A", "1", 1, some 5, [⟨"B", "1.1", 1, some 10, []⟩]⟩] = false := by
  rfl

example :
    forestEnds
      (resolveList 20 false [⟨"A", "1", 1, some 5, [⟨"B", "1.1", 1, some 10, []⟩]⟩]) =
      [some 5, some 5] := by rfl

theorem wfNode_start_le (lo hi : Nat) (nx : Option Nat) (m : TOCNode)
    (h : wfNode lo hi nx m = true) : m.start_page ≤ hi := by
  obtain ⟨t, num, s, e, cs⟩ := m
  simp only [wfNode, Bool.and_eq_true, decide_eq_true_eq] at h
  exact h.1.1.2

theorem resolveNode_wf_ok (lo hi : Nat) (c : Bool) (next : Option Nat) (n : TOCNode)
    (IH : ∀ lo' hi' : Nat, ∀ c' : Bool, wfSibs lo' hi' n.children = true →
      okForest lo' hi' (resolveList hi' c' n.children) = true)
    (hwf : wfNode lo hi next n = true)
    (hnext : ∀ m, next = some m → m ≤ hi) :
    okNode lo hi (resolveNode hi c next n) = true := by
  obtain ⟨t, num, s, e, cs⟩ := n
  simp only [TOCNode.children] at IH
  cases e with
  | some v =>
    simp only [wfNode, Bool.and_eq_true, decide_eq_true_eq] at hwf
    obtain ⟨⟨⟨hlo, hs⟩, hsv, hv⟩, hcs⟩ := hwf
    have he1 : max s v ≤ hi := max_le hs hv
    have he2 : (if c then min (max s v) hi else max s v) = max s v := by
      cases c <;> simp only [if_true, if_false, Bool.false_eq_true] <;> omega
    simp only [resolveNode, okNode, he2, Bool.and_eq_true, decide_eq_true_eq]
    exact ⟨⟨⟨hlo, Nat.le_max_left s v⟩, he1⟩, IH s (max s v) true hcs⟩
  | none =>
    cases next with
    | none =>
      simp only [wfNode, Bool.and_eq_true, decide_eq_true_eq] at hwf
      obtain ⟨⟨⟨hlo, hs⟩, -⟩, hcs⟩ := hwf
      have he1 : max s hi ≤ hi := max_le hs le_rfl
      have he2 : (if c then min (max s hi) hi else max s hi) = max s hi := by
        cases c <;> simp only [if_true, if_false, Bool.false_eq_true] <;> omega
      simp only [resolveNode, okNode, he2, Bool.and_eq_true, decide_eq_true_eq]
      exact ⟨⟨⟨hlo, Nat.le_max_left s hi⟩, he1⟩, IH s (max s hi) true hcs⟩
    | some m =>
      have hm : m ≤ hi := hnext m rfl
      simp only [wfNode, Bool.and_eq_true, decide_eq_true_eq] at hwf
      obtain ⟨⟨⟨hlo, hs⟩, -⟩, hcs⟩ := hwf
      have he1 : max s (m - 1) ≤ hi := max_le hs (Nat.le_trans (Nat.sub_le m 1) hm)
      have he2 : (if c then min (max s (m - 1)) hi else max s (m - 1)) = max s (m - 1) := by
        cases c <;> simp only [if_true, if_false, Bool.false_eq_true] <;> omega
      simp only [resolveNode, okNode, he2, Bool.and_eq_true, decide_eq_true_eq]
      exact ⟨⟨⟨hlo, Nat.le_max_left s (m - 1)⟩, he1⟩, IH s (max s (m - 1)) true hcs⟩

theorem resolveList_wf_ok (ns : List TOCNode) :
    ∀ lo hi : Nat, ∀ c : Bool, wfSibs lo hi ns = true →
      okForest lo hi (resolveList hi c ns) = true := by
  induction ns using forestInd with
  | h0 => intro lo hi c _; rfl
  | h1 n rest IHc IHrest =>
    intro lo hi c hwf
    simp only [wfSibs, Bool.and_eq_true] at hwf
    obtain ⟨hn, hrest⟩ := hwf
    simp only [resolveList, okForest, Bool.and_eq_true]
    refine ⟨resolveNode_wf_ok lo hi c _ n IHc hn ?_, IHrest lo hi c hrest⟩
    intro m hm
    cases rest with
    | nil => simp at hm
    | cons r rest' =>
      simp only [List.head?_cons, Option.map_some] at hm
      cases hm
      simp only [wfSibs, Bool.and_eq_true] at hrest
      exact wfNode_start_le lo hi _ r hrest.1

theorem resolveList_fc_id (ns : List TOCNode) :
    ∀ b : Nat,
      (fullyConsistent none ns = true → resolveList b false ns = ns) ∧
      (fullyConsistent (some b) ns = true → resolveList b true ns = ns) := by
  induction ns using forestInd with
  | h0 => intro b; exact ⟨fun _ => rfl, fun _ => rfl⟩
  | h1 n rest IHc IHrest =>
    intro b
    obtain ⟨t, num, s, e, cs⟩ := n
    simp only [TOCNode.children] at IHc
    cases e with
    | none =>
      constructor <;> intro hfc <;> simp [fullyConsistent, fcNode] at hfc
    | some v =>
      constructor <;> intro hfc <;>
        simp only [fullyConsistent, fcNode, Bool.and_eq_true, Bool.and_true,
          decide_eq_true_eq] at hfc
      · obtain ⟨⟨hsv, hcs⟩, hrest⟩ := hfc
        simp [resolveList, resolveNode, Nat.max_eq_right hsv,
          (IHrest b).1 hrest, (IHc v).2 hcs]
      · obtain ⟨⟨⟨hsv, hvb⟩, hcs⟩, hrest⟩ := hfc
        simp [resolveList, resolveNode, Nat.max_eq_right hsv,
          Nat.min_eq_left hvb, (IHrest b).2 hrest, (IHc v).2 hcs]

mutual

/-- Whether one node and all of its descendants have `end_page` set. -/
def nodeEndsSet (n : TOCNode) : Bool :=
  match n with
  | ⟨_, _, _, e, cs⟩ => e.isSome && forestEndsSet cs

/-- Whether every node of a forest has `end_page` set. -/
def forestEndsSet (ns : List TOCNode) : Bool :=
  match ns with
  | [] => true
  | n :: rest => nodeEndsSet n && forestEndsSet rest

end

/-- Projection of a resolver result used to distinguish outcomes. -/
def resultEnds : Except String TOCTree → List (Option Nat)
  | .ok t => forestEnds t.chapters
  | .error _ => []

/-- The tree of spec Scenario B before resolution: Ch1 at page 1 with
child 1.1 at page 3, Ch2 at page 10, in a 20-page document. -/
def scenarioBTree : TOCTree :=
  ⟨[⟨"Ch1", "1", 1, none, [⟨"1.1", "1.1", 3, none, []⟩]⟩,
    ⟨"Ch2", "2", 10, none, []⟩], 1⟩

/-- A one-node tree whose start page (5) exceeds the page count (3);
a stale manual TOC in the sense of spec Scenario D. -/
def staleTree : TOCTree := ⟨[⟨"A", "1", 5, none, []⟩], 1⟩

/-- A tree with all ends set but a child end (10) above its parent's
end (5). -/
def overflowTree : TOCTree :=
  ⟨[⟨"A", "1", 1, some 5, [⟨"B", "1.1", 1, some 10, []⟩]⟩], 1⟩

/-- C1 (amended): for every TOCTree with a non-empty root list whose
nodes are well formed for resolution (starts within `[1, total_pages]`
and within the enclosing range, preset ends within `[start, total]`),
`resolve` succeeds and every node of the result satisfies
`1 <= start_page <= end_page <= total_pages`, with every child range
contained in its parent's range.  Without the well-formedness
hypothesis the claim fails (see the counterexample). -/
theorem resolve_ok_of_wf (t : TOCTree) (total : Nat)
    (hne : t.chapters.isEmpty = false)
    (hwf : wfSibs 1 total t.chapters = true) :
    ∃ t' : TOCTree, resolve t total = .ok t' ∧
      okForest 1 total t'.chapters = true := by
  refine ⟨{ t with chapters := resolveList total false t.chapters }, ?_, ?_⟩
  · simp [resolve, hne]
  · exact resolveList_wf_ok t.chapters 1 total false hwf

/-- Witness for `resolve_ok_of_wf` at spec Scenario B. -/
theorem resolve_ok_of_wf_witness :
    scenarioBTree.chapters.isEmpty = false ∧
    wfSibs 1 20 scenarioBTree.chapters = true ∧
    ∃ t' : TOCTree, resolve scenarioBTree 20 = .ok t' ∧
      okForest 1 20 t'.chapters = true :=
  ⟨rfl, rfl, resolve_ok_of_wf scenarioBTree 20 rfl rfl⟩

/-- C1 counterexample: the claim as stated, quantified over every tree
with a non-empty root list and every `total_pages >= 1`, is false: for
the one-chapter tree starting at page 5 with `total_pages = 3`,
`resolve` yields end page 5 > 3, so the resolved tree violates
`end_page <= total_pages`. -/
theorem resolve_ok_cex :
    (1 ≤ 3 ∧ staleTree.chapters.isEmpty = false) ∧
    resolve staleTree 3 = .ok ⟨[⟨"A", "1", 5, some 5, []⟩], 1⟩ ∧
    okForest 1 3 [⟨"A", "1", 5, some 5, []⟩] = false :=
  ⟨⟨by omega, rfl⟩, rfl, rfl⟩

/-- C4 (amended): re-resolving a tree with a non-empty root list in
which every node's `end_page` is already set, no smaller than its
`start_page`, and no larger than its parent's `end_page`, yields the
input tree unchanged, for every `total_pages`.  Merely having every
`end_page` set is not enough (see the counterexample). -/
theorem resolve_fc_id (t : TOCTree) (total : Nat)
    (hne : t.chapters.isEmpty = false)
    (hfc : fullyConsistent none t.chapters = true) :
    resolve t total = .ok t := by
  simp [resolve, hne, (resolveList_fc_id t.chapters total).1 hfc]

/-- The resolved Scenario B tree: all ends set and mutually
consistent. -/
def consistentTree : TOCTree :=
  ⟨[⟨"Ch1", "1", 1, some 9, [⟨"1.1", "1.1", 3, some 9, []⟩]⟩,
    ⟨"Ch2", "2", 10, some 20, []⟩], 1⟩

/-- Witness for `resolve_fc_id` on a consistent fully-set tree. -/
theorem resolve_fc_id_witness :
    consistentTree.chapters.isEmpty = false ∧
    fullyConsistent none consistentTree.chapters = true ∧
    resolve consistentTree 20 = .ok consistentTree :=
  ⟨rfl, rfl, resolve_fc_id consistentTree 20 rfl rfl⟩

/-- C4 counterexample: a tree in which every node's `end_page` is
already set but a child's end (10) exceeds its parent's end (5) is not
returned unchanged: the resolver clamps the child's end down to 5. -/
theorem resolve_fc_cex :
    forestEndsSet overflowTree.chapters = true ∧
    resolve overflowTree 20 ≠ .ok overflowTree := by
  refine ⟨rfl, fun h => ?_⟩
  have h2 := congrArg resultEnds h
  exact absurd h2 (by decide)

/-- An embedded outline entry as returned by `read_outline()`:
title, nesting level (0 = top), 1-based target page. -/
structure OutlineEntry where
  title : String
  level : Nat
  target_page : Nat
deriving Repr

/-- Replace the last element of a list, if any. -/
def modifyLast (f : TOCNode → TOCNode) : List TOCNode → List TOCNode
  | [] => []
  | [x] => [f x]
  | x :: y :: rest => x :: modifyLast f (y :: rest)

/-- Modelled from the spec: outline grouping (§4.2) — an entry at level
L becomes a child of the most recent preceding entry at level L-1;
level-0 entries become top-level chapters.  An entry with no parent at
the previous level is dropped (the spec leaves this case open). -/
def insertAt : Nat → TOCNode → List TOCNode → List TOCNode
  | 0, node, f => f ++ [node]
  | l + 1, node, f =>
    if f.isEmpty then f
    else
      modifyLast
        (fun x => ⟨x.title, x.number, x.start_page, x.end_page,
          insertAt l node x.children⟩) f

mutual

/-- Modelled from the spec: sibling-index numbering (§4.2) of one node
(for example "1", "1.2"). -/
def renumberNode (pfx : String) (i : Nat) (n : TOCNode) : TOCNode :=
  match n with
  | ⟨t, _, s, e, cs⟩ =>
    ⟨t, pfx ++ toString i, s, e, renumberList (pfx ++ toString i ++ ".") 1 cs⟩

/-- Modelled from the spec: sibling-index numbering of a sibling list,
starting at index `i`. -/
def renumberList (pfx : String) (i : Nat) (ns : List TOCNode) : List TOCNode :=
  match ns with
  | [] => []
  | n :: rest => renumberNode pfx i n :: renumberList pfx (i + 1) rest

end

/-- Modelled from the spec: grouping of a flat outline into a forest
(§4.2). -/
def buildForest (outline : List OutlineEntry) : List TOCNode :=
  outline.foldl (fun f o => insertAt o.level ⟨o.title, "", o.target_page, none, []⟩ f) []

/-- Modelled from the spec: `TOCExtractor.extract` (§4.2); the backend
module is not among the given sources.  Groups the outline by level,
numbers siblings, and falls back to a single full-document chapter when
no top-level entry results (in particular for an empty outline);
outline-derived ends stay `null` for RangeResolver. -/
def extract (outline : List OutlineEntry) (pageCount : Nat) (fallbackTitle : String) : TOCTree :=
  let forest := renumberList "" 1 (buildForest outline)
  if forest.isEmpty then ⟨[⟨fallbackTitle, "1", 1, some pageCount, []⟩], 1⟩
  else ⟨forest, 1⟩

example :
    extract [⟨"Ch1", 0, 1⟩, ⟨"1.1", 1, 3⟩, ⟨"Ch2", 0, 10⟩] 20 "Doc" =
      ⟨[⟨"Ch1", "1", 1, none, [⟨"1.1", "1.1", 3, none, []⟩]⟩,
        ⟨"Ch2", "2", 10, none, []⟩], 1⟩ := by rfl

/-- C2: for every outline, page count and fallback title, `extract`
returns a tree with a non-empty chapter list, and for a document with
no embedded outline and `pageCount` pages it returns exactly one
chapter spanning pages 1 to `pageCount` with no children. -/
theorem extract_nonempty_and_fallback (outline : List OutlineEntry)
    (pageCount : Nat) (fallbackTitle : String) :
    (extract outline pageCount fallbackTitle).chapters.isEmpty = false ∧
    extract [] pageCount fallbackTitle =
      ⟨[⟨fallbackTitle, "1", 1, some pageCount, []⟩], 1⟩ := by
  constructor
  · cases h : (renumberList "" 1 (buildForest outline)).isEmpty with
    | true => simp [extract, h]
    | false => simp [extract, h]
  · rfl

/-- Modelled from the spec: job status values (§4.6). -/
inductive JobStatus where
  | queued
  | inProgress
  | completed
  | failed
deriving Repr, DecidableEq

/-- Modelled from the spec: one observable snapshot of a SplitJob
record (§3); timestamps are omitted. -/
structure SplitJob where
  status : JobStatus
  progress : Option Nat
  output_path : Option String
  error : Option String
deriving Repr, DecidableEq

/-- Modelled from the spec: the engine stores splitter percentages
scaled into 0-95 to reserve headroom for archiving (§4.6). -/
def storedProgress (p : Nat) : Nat := p * 95 / 100

/-- Modelled from the spec: the snapshot trace of one job as mutated by
the SplitJobEngine worker (§4.6): created Queued, switched to
InProgress, one snapshot per scaled splitter progress update, then the
terminal snapshot — Completed with progress 100 and the archive path on
success, or Failed with the error message and the last reported
progress. -/
def jobTrace (percents : List Nat) (outcome : Except String String) : List SplitJob :=
  let final : SplitJob := match outcome with
    | .ok path => ⟨.completed, some 100, some path, none⟩
    | .error e => ⟨.failed, some ((percents.map storedProgress).getLastD 0), none, some e⟩
  ⟨.queued, some 0, none, none⟩ ::
    ⟨.inProgress, some 0, none, none⟩ ::
      percents.map (fun p => ⟨.inProgress, some (storedProgress p), none, none⟩) ++
    [final]

/-- Allowed status transitions of the job state machine: Queued to
InProgress, staying InProgress, and InProgress to a terminal status. -/
def statusStep (a b : SplitJob) : Prop :=
  (a.status = .queued ∧ b.status = .inProgress) ∨
  (a.status = .inProgress ∧ b.status = .inProgress) ∨
  (a.status = .inProgress ∧ (b.status = .completed ∨ b.status = .failed))

theorem chain_inprogress (fin : SplitJob)
    (hfin : fin.status = .completed ∨ fin.status = .failed) :
    ∀ ps : List Nat, ∀ a : SplitJob, a.status = .inProgress →
      List.Chain' statusStep
        (a :: (ps.map (fun p => ⟨.inProgress, some (storedProgress p), none, none⟩) ++ [fin])) := by
  intro ps
  induction ps with
  | nil =>
    intro a ha
    simp only [List.map_nil, List.nil_append, List.chain'_cons, List.chain'_singleton,
      and_true]
    exact Or.inr (Or.inr ⟨ha, hfin⟩)
  | cons p ps IH =>
    intro a ha
    simp only [List.map_cons, List.cons_append, List.chain'_cons]
    exact ⟨Or.inr (Or.inl ⟨ha, rfl⟩), IH _ rfl⟩

/-- C3: every job trace moves only along allowed transitions
(Queued to InProgress to Completed or Failed), ends in a terminal
snapshot — every submitted job eventually reaches Completed or
Failed — and no snapshot follows the terminal one: every strictly
earlier snapshot is Queued or InProgress, so a job in a terminal state
is never mutated again. -/
theorem jobTrace_state_machine (percents : List Nat) (outcome : Except String String) :
    ∃ (pre : List SplitJob) (fin : SplitJob),
      jobTrace percents outcome = pre ++ [fin] ∧
      List.Chain' statusStep (jobTrace percents outcome) ∧
      (fin.status = .completed ∨ fin.status = .failed) ∧
      ∀ x ∈ pre, x.status = .queued ∨ x.status = .inProgress := by
  have hfin : ∀ fin : SplitJob,
      (fin = match outcome with
        | .ok path => (⟨.completed, some 100, some path, none⟩ : SplitJob)
        | .error e => ⟨.failed, some ((percents.map storedProgress).getLastD 0), none, some e⟩) →
      fin.status = .completed ∨ fin.status = .failed := by
    intro fin h
    cases outcome with
    | ok path => subst h; exact Or.inl rfl
    | error e => subst h; exact Or.inr rfl
  refine ⟨⟨.queued, some 0, none, none⟩ ::
      ⟨.inProgress, some 0, none, none⟩ ::
        percents.map (fun p => ⟨.inProgress, some (storedProgress p), none, none⟩),
    _, ?_, ?_, hfin _ rfl, ?_⟩
  · simp [jobTrace]
  · refine List.Chain'.cons (Or.inl ⟨rfl, rfl⟩) ?_
    exact chain_inprogress _ (hfin _ rfl) percents _ rfl
  · intro x hx
    simp only [List.mem_cons, List.mem_map] at hx
    rcases hx with h | h | ⟨p, -, h⟩
    · subst h; exact Or.inl rfl
    · subst h; exact Or.inr rfl
    · subst h; exact Or.inr rfl

/-- Collapse whitespace runs into single underscores; `inRun` records
whether the previous character was whitespace. -/
def collapseWS (inRun : Bool) : List Char → List Char
  | [] => []
  | c :: cs =>
    if c.isWhitespace then
      if inRun then collapseWS true cs else '_' :: collapseWS true cs
    else c :: collapseWS false cs

/-- Modelled from the spec: title sanitization (§4.4) — whitespace runs
become underscores, path-illegal characters are stripped, and the
result is truncated to a safe maximum length (100 here). -/
def sanitizeTitle (s : String) : String :=
  String.mk (((collapseWS false s.toList).filter
    (fun c => !("/\\:*?\"<>|".toList.contains c))).take 100)

example : sanitizeTitle "My  Chapter: one" = "My_Chapter_one" := by rfl

mutual

/-- Number of nodes below (and including) one node. -/
def countNode (n : TOCNode) : Nat :=
  match n with
  | ⟨_, _, _, _, cs⟩ => 1 + countForest cs

/-- Total number of nodes of a forest, each of which yields exactly one
output file. -/
def countForest (ns : List TOCNode) : Nat :=
  match ns with
  | [] => 0
  | n :: rest => countNode n + countForest rest

end

mutual

/-- Modelled from the spec: HierarchicalSplitter (§4.4) at one node.
Returns the written files as (path, start, end) triples, the
percentages passed to the progress callback (one per file, in order),
and the updated files-written counter.  A childless node yields one
file `dir ++ index ++ _title ++ .pdf`; a node with children yields a
directory of the same base name holding the node's own full-range file
and the children's files, children being numbered
`index.childIndex`. -/
def splitNode (total cnt : Nat) (dir idx : String) (n : TOCNode) :
    List (String × Nat × Nat) × List Nat × Nat :=
  match n with
  | ⟨t, _, s, e, cs⟩ =>
    let base := idx ++ "_" ++ sanitizeTitle t
    let ep := e.getD s
    match cs with
    | [] => ([(dir ++ base ++ ".pdf", s, ep)], [100 * (cnt + 1) / total], cnt + 1)
    | c :: cs' =>
      let sub := splitKids total (cnt + 1) (dir ++ base ++ "/") idx 1 (c :: cs')
      ((dir ++ base ++ "/" ++ base ++ ".pdf", s, ep) :: sub.1,
       100 * (cnt + 1) / total :: sub.2.1, sub.2.2)

/-- Modelled from the spec: HierarchicalSplitter over the children of a
node whose index is `pidx`, numbering them `pidx.j`, `pidx.(j+1)`,
and so on. -/
def splitKids (total cnt : Nat) (dir pidx : String) (j : Nat) (ns : List TOCNode) :
    List (String × Nat × Nat) × List Nat × Nat :=
  match ns with
  | [] => ([], [], cnt)
  | n :: rest =>
    let r1 := splitNode total cnt dir (pidx ++ "." ++ toString j) n
    let r2 := splitKids total r1.2.2 dir pidx (j + 1) rest
    (r1.1 ++ r2.1, r1.2.1 ++ r2.2.1, r2.2.2)

end

/-- Modelled from the spec: HierarchicalSplitter over the top-level
chapter list, numbering chapters `j`, `j+1`, and so on. -/
def splitTop (total cnt : Nat) (dir : String) (j : Nat) (ns : List TOCNode) :
    List (String × Nat × Nat) × List Nat × Nat :=
  match ns with
  | [] => ([], [], cnt)
  | n :: rest =>
    let r1 := splitNode total cnt dir (toString j) n
    let r2 := splitTop total r1.2.2 dir (j + 1) rest
    (r1.1 ++ r2.1, r1.2.1 ++ r2.2.1, r2.2.2)

example :
    (splitTop 3 0 "" 1 consistentTree.chapters).1 =
      [("1_Ch1/1_Ch1.pdf", 1, 9), ("1_Ch1/1.1_1.1.pdf", 3, 9),
       ("2_Ch2.pdf", 10, 20)] := by rfl

example :
    (splitTop 3 0 "" 1 consistentTree.chapters).2.1 = [33, 66, 100] := by rfl

theorem splitKids_paths_under (ns : List TOCNode) :
    ∀ total cnt : Nat, ∀ dir pidx : String, ∀ j : Nat,
      ∀ f ∈ (splitKids total cnt dir pidx j ns).1, ∃ u : String, f.1 = dir ++ u := by
  induction ns using forestInd with
  | h0 => intro total cnt dir pidx j f hf; simp [splitKids] at hf
  | h1 n rest IHc IHrest =>
    intro total cnt dir pidx j f hf
    obtain ⟨t, num, s, e, cs⟩ := n
    simp only [TOCNode.children] at IHc
    simp only [splitKids, List.mem_append] at hf
    rcases hf with hf | hf
    · cases cs with
      | nil =>
        simp only [splitNode, List.mem_singleton] at hf
        subst hf
        exact ⟨_, by rw [String.append_assoc]⟩
      | cons c cs' =>
        simp only [splitNode, List.mem_cons] at hf
        rcases hf with hf | hf
        · subst hf
          exact ⟨pidx ++ "." ++ toString j ++ "_" ++ sanitizeTitle t ++ "/" ++
              (pidx ++ "." ++ toString j ++ "_" ++ sanitizeTitle t ++ ".pdf"),
            by simp only [String.append_assoc]⟩
        · obtain ⟨u, hu⟩ := IHc total (cnt + 1)
            (dir ++ ((pidx ++ "." ++ toString j) ++ "_" ++ sanitizeTitle t) ++ "/")
            (pidx ++ "." ++ toString j) 1 f hf
          rw [hu]
          exact ⟨pidx ++ "." ++ toString j ++ "_" ++ sanitizeTitle t ++ "/" ++ u,
            by simp only [String.append_assoc]⟩
    · exact IHrest total _ dir pidx (j + 1) f hf

/-- The top-level chapter of the resolved Scenario B tree that has a
child. -/
def ch1Node : TOCNode := ⟨"Ch1", "1", 1, some 9, [⟨"1.1", "1.1", 3, some 9, []⟩]⟩

/-- C5: a chapter with children yields its own full-range file
`{index}_{sanitized_title}.pdf` placed first inside the directory
`{index}_{sanitized_title}/`, with every further file of that chapter
written under the same directory (children named
`{index}.{child_index}_{sanitized_title}.pdf`, sanitization collapsing
whitespace runs to underscores); in particular the resolved Scenario B
tree yields `1_Ch1/` with `1_Ch1.pdf` (pages 1-9) and `1.1_1.1.pdf`
(pages 3-9), plus `2_Ch2.pdf` (pages 10-20). -/
theorem splitter_hierarchy (total cnt : Nat) (dir idx : String) (n : TOCNode)
    (hc : n.children ≠ []) :
    (∃ rest',
      (splitNode total cnt dir idx n).1 =
        (dir ++ (idx ++ "_" ++ sanitizeTitle n.title) ++ "/" ++
            (idx ++ "_" ++ sanitizeTitle n.title) ++ ".pdf",
          n.start_page, n.end_page.getD n.start_page) :: rest' ∧
      ∀ f ∈ rest', ∃ u : String,
        f.1 = (dir ++ (idx ++ "_" ++ sanitizeTitle n.title) ++ "/") ++ u) ∧
    (splitTop 3 0 "" 1 consistentTree.chapters).1 =
      [("1_Ch1/1_Ch1.pdf", 1, 9), ("1_Ch1/1.1_1.1.pdf", 3, 9),
       ("2_Ch2.pdf", 10, 20)] := by
  refine ⟨?_, by rfl⟩
  obtain ⟨t, num, s, e, cs⟩ := n
  cases cs with
  | nil => simp at hc
  | cons c cs' =>
    refine ⟨(splitKids total (cnt + 1)
        (dir ++ (idx ++ "_" ++ sanitizeTitle t) ++ "/") idx 1 (c :: cs')).1,
      by simp [splitNode], ?_⟩
    intro f hf
    exact splitKids_paths_under (c :: cs') total (cnt + 1) _ idx 1 f hf

/-- Witness for `splitter_hierarchy` at the Ch1 chapter of the resolved
Scenario B tree. -/
theorem splitter_hierarchy_witness :
    (∃ rest',
      (splitNode 3 0 "" "1" ch1Node).1 =
        ("" ++ ("1" ++ "_" ++ sanitizeTitle ch1Node.title) ++ "/" ++
            ("1" ++ "_" ++ sanitizeTitle ch1Node.title) ++ ".pdf",
          ch1Node.start_page, ch1Node.end_page.getD ch1Node.start_page) :: rest' ∧
      ∀ f ∈ rest', ∃ u : String,
        f.1 = ("" ++ ("1" ++ "_" ++ sanitizeTitle ch1Node.title) ++ "/") ++ u) ∧
    (splitTop 3 0 "" 1 consistentTree.chapters).1 =
      [("1_Ch1/1_Ch1.pdf", 1, 9), ("1_Ch1/1.1_1.1.pdf", 3, 9),
       ("2_Ch2.pdf", 10, 20)] :=
  splitter_hierarchy 3 0 "" "1" ch1Node (List.cons_ne_nil _ _)

/-- Modelled from the spec: `calculatePDFPages` from the manual-TOC
types module (`frontend/src/types/manual-toc.ts`), which is not among
the given sources although its callers are; §6 specifies
`absolute = content_start_page + relative - 1`. -/
def calculatePDFPages (contentStartPage relativePage : Int) : Int :=
  contentStartPage + relativePage - 1

/-- A node of the manual TOC editor (frontend type `ManualTOCNode`);
page numbers are JS numbers, modelled as integers. -/
structure ManualTOCNode where
  id : String
  title : String
  startPage : Int
  endPage : Option Int
  pdfStartPage : Option Int
  pdfEndPage : Option Int
  level : Nat
  parentId : Option String
  children : List ManualTOCNode
deriving Repr

mutual

/-- Helper for `mforestInd`: the induction hypothesis for the children
of a single manual node. -/
def mnodeInd (P : List ManualTOCNode → Prop) (h0 : P [])
    (h1 : ∀ (n : ManualTOCNode) (rest : List ManualTOCNode),
      P n.children → P rest → P (n :: rest)) :
    ∀ n : ManualTOCNode, P n.children
  | ⟨_, _, _, _, _, _, _, _, cs⟩ => mforestInd P h0 h1 cs

/-- Induction over forests of `ManualTOCNode`. -/
def mforestInd (P : List ManualTOCNode → Prop) (h0 : P [])
    (h1 : ∀ (n : ManualTOCNode) (rest : List ManualTOCNode),
      P n.children → P rest → P (n :: rest)) :
    ∀ ns : List ManualTOCNode, P ns
  | [] => h0
  | n :: rest => h1 n rest (mnodeInd P h0 h1 n) (mforestInd P h0 h1 rest)

end

mutual

/-- The per-node step of `handleDeleteNode` (frontend sources): a kept
node has its children filtered in place, and only when it has any
(`if (node.children.length > 0)` in the source). -/
def deleteNodeChildren (nodeId : String) (n : ManualTOCNode) : ManualTOCNode :=
  match n with
  | ⟨i, t, sp, ep, ps, pe, lv, pid, cs⟩ =>
    ⟨i, t, sp, ep, ps, pe, lv, pid,
      if cs.isEmpty then cs else deleteNodeFromStructure nodeId cs⟩

/-- `deleteNodeFromStructure` from ManualTOCEditor `handleDeleteNode`
(frontend sources): drops every node whose id matches (together with
its whole subtree, which is never visited) and recurses into the
children of every kept node. -/
def deleteNodeFromStructure (nodeId : String) (ns : List ManualTOCNode) : List ManualTOCNode :=
  match ns with
  | [] => []
  | n :: rest =>
    if n.id = nodeId then deleteNodeFromStructure nodeId rest
    else deleteNodeChildren nodeId n :: deleteNodeFromStructure nodeId rest

end

mutual

/-- Whether the id occurs in one node's subtree. -/
def occursIdNode (nodeId : String) (n : ManualTOCNode) : Bool :=
  match n with
  | ⟨i, _, _, _, _, _, _, _, cs⟩ => decide (i = nodeId) || occursId nodeId cs

/-- Whether the id occurs anywhere in the forest. -/
def occursId (nodeId : String) (ns : List ManualTOCNode) : Bool :=
  match ns with
  | [] => false
  | n :: rest => occursIdNode nodeId n || occursId nodeId rest

end

/-- The node-local fields of a manual node (everything except the
children list and the derived pdf pages). -/
structure MScalar where
  id : String
  title : String
  startPage : Int
  endPage : Option Int
deriving Repr, DecidableEq

mutual

/-- Preorder scalar projection of one node's subtree. -/
def nodeScalars (n : ManualTOCNode) : List MScalar :=
  match n with
  | ⟨i, t, sp, ep, _, _, _, _, cs⟩ => ⟨i, t, sp, ep⟩ :: forestScalars cs

/-- Preorder scalar projection of a forest: one entry per node at any
depth, in document order. -/
def forestScalars (ns : List ManualTOCNode) : List MScalar :=
  match ns with
  | [] => []
  | n :: rest => nodeScalars n ++ forestScalars rest

end

theorem deleteNode_not_occurs (nid : String) (ns : List ManualTOCNode) :
    occursId nid (deleteNodeFromStructure nid ns) = false := by
  induction ns using mforestInd with
  | h0 => rfl
  | h1 n rest IHc IHrest =>
    obtain ⟨i, t, sp, ep, ps, pe, lv, pid, cs⟩ := n
    simp only [ManualTOCNode.children] at IHc
    by_cases h : i = nid
    · simp only [deleteNodeFromStructure, ManualTOCNode.id, h, if_pos rfl]
      exact IHrest
    · simp only [deleteNodeFromStructure, ManualTOCNode.id, if_neg h, occursId,
        occursIdNode, deleteNodeChildren, Bool.or_eq_false_iff]
      refine ⟨⟨by simp [h], ?_⟩, IHrest⟩
      cases hcs : cs.isEmpty with
      | true =>
        cases cs with
        | nil => rfl
        | cons c cs' => simp [List.isEmpty] at hcs
      | false => exact IHc

theorem deleteNode_id (nid : String) (ns : List ManualTOCNode)
    (h : occursId nid ns = false) : deleteNodeFromStructure nid ns = ns := by
  induction ns using mforestInd with
  | h0 => rfl
  | h1 n rest IHc IHrest =>
    obtain ⟨i, t, sp, ep, ps, pe, lv, pid, cs⟩ := n
    simp only [ManualTOCNode.children] at IHc
    simp only [occursId, occursIdNode, Bool.or_eq_false_iff, decide_eq_false_iff_not] at h
    obtain ⟨⟨hi, hcs⟩, hrest⟩ := h
    simp only [deleteNodeFromStructure, ManualTOCNode.id, if_neg hi,
      deleteNodeChildren, IHrest hrest]
    cases hce : cs.isEmpty with
    | true => simp
    | false => simp [IHc hcs]

theorem deleteNode_scalars_sublist (nid : String) (ns : List ManualTOCNode) :
    List.Sublist (forestScalars (deleteNodeFromStructure nid ns)) (forestScalars ns) := by
  induction ns using mforestInd with
  | h0 => exact List.Sublist.refl _
  | h1 n rest IHc IHrest =>
    obtain ⟨i, t, sp, ep, ps, pe, lv, pid, cs⟩ := n
    simp only [ManualTOCNode.children] at IHc
    by_cases h : i = nid
    · simp only [deleteNodeFromStructure, ManualTOCNode.id, h, if_pos rfl]
      exact (IHrest.trans (List.sublist_append_right _ _))
    · simp only [deleteNodeFromStructure, ManualTOCNode.id, if_neg h,
        deleteNodeChildren, forestScalars, nodeScalars, List.cons_append]
      refine List.Sublist.cons₂ _ ?_
      refine List.Sublist.append ?_ IHrest
      cases hce : cs.isEmpty with
      | true => exact List.Sublist.refl _
      | false => exact IHc

theorem deleteNode_filter_map (nid : String) (ns : List ManualTOCNode) :
    deleteNodeFromStructure nid ns =
      (ns.filter (fun n => !decide (n.id = nid))).map
        (fun n => { n with children := deleteNodeFromStructure nid n.children }) := by
  induction ns using mforestInd with
  | h0 => rfl
  | h1 n rest _ IHrest =>
    obtain ⟨i, t, sp, ep, ps, pe, lv, pid, cs⟩ := n
    by_cases h : i = nid
    · simp [deleteNodeFromStructure, ManualTOCNode.id, h, IHrest]
    · cases cs with
      | nil =>
        simp [deleteNodeFromStructure, deleteNodeChildren, ManualTOCNode.id,
          h, IHrest]
      | cons c cs' =>
        simp [deleteNodeFromStructure, deleteNodeChildren, ManualTOCNode.id,
          h, IHrest]

/-- C9: deleting a node id from the manual structure removes every node
with that id at any depth, and the result is exactly the input list
with the matching nodes filtered out wholesale — their entire subtrees
dropped, never spliced into the parent — and every kept node retained
in its original position with all its fields unchanged except that its
children are filtered the same way (the filter-map equation holds for
every forest, so it determines the result at every depth); in
particular the preorder scalar projection of the result is a sublist of
the input's, and a structure not containing the id anywhere is returned
unchanged. -/
theorem handleDeleteNode_spec (nid : String) (ns : List ManualTOCNode) :
    occursId nid (deleteNodeFromStructure nid ns) = false ∧
    deleteNodeFromStructure nid ns =
      (ns.filter (fun n => !decide (n.id = nid))).map
        (fun n => { n with children := deleteNodeFromStructure nid n.children }) ∧
    List.Sublist (forestScalars (deleteNodeFromStructure nid ns)) (forestScalars ns) ∧
    (occursId nid ns = false → deleteNodeFromStructure nid ns = ns) :=
  ⟨deleteNode_not_occurs nid ns, deleteNode_filter_map nid ns,
   deleteNode_scalars_sublist nid ns, deleteNode_id nid ns⟩

/-- A small two-chapter structure with a nested subchapter, used to
instantiate the delete theorem. -/
def demoStructure : List ManualTOCNode :=
  [⟨"a", "A", 1, some 4, none, none, 0, none,
     [⟨"b", "B", 2, some 3, none, none, 1, some "a", []⟩]⟩,
   ⟨"c", "C", 5, some 9, none, none, 0, none, []⟩]

/-- Witness for `handleDeleteNode_spec`: deleting id "b" from the demo
structure. -/
theorem handleDeleteNode_spec_witness :
    occursId "b" (deleteNodeFromStructure "b" demoStructure) = false ∧
    deleteNodeFromStructure "b" demoStructure =
      (demoStructure.filter (fun n => !decide (n.id = "b"))).map
        (fun n => { n with children := deleteNodeFromStructure "b" n.children }) ∧
    List.Sublist (forestScalars (deleteNodeFromStructure "b" demoStructure))
      (forestScalars demoStructure) ∧
    (occursId "b" demoStructure = false →
      deleteNodeFromStructure "b" demoStructure = demoStructure) :=
  handleDeleteNode_spec "b" demoStructure

/-- The JS expression `node.endPage || node.startPage` from
`getLastUsedPage`: JavaScript treats 0 (and undefined) as falsy, so an
`endPage` of 0 falls back to the start page. -/
def effEnd (n : ManualTOCNode) : Int :=
  match n.endPage with
  | some e => if e = 0 then n.startPage else e
  | none => n.startPage

mutual

/-- `findLastPage` from ManualTOCEditor `getLastUsedPage` (frontend
sources), at one node: fold the node's effective end into the
accumulator, then its children. -/
def lastPageNode (acc : Int) (n : ManualTOCNode) : Int :=
  match n with
  | ⟨i, t, sp, ep, ps, pe, lv, pid, cs⟩ =>
    lastPageForest (max acc (effEnd ⟨i, t, sp, ep, ps, pe, lv, pid, cs⟩)) cs

/-- `findLastPage` over a sibling list, left to right. -/
def lastPageForest (acc : Int) (ns : List ManualTOCNode) : Int :=
  match ns with
  | [] => acc
  | n :: rest => lastPageForest (lastPageNode acc n) rest

end

mutual

/-- Occurrence (by value) of a node in one node's subtree. -/
def memNode (m : ManualTOCNode) (n : ManualTOCNode) : Prop :=
  match n with
  | ⟨i, t, sp, ep, ps, pe, lv, pid, cs⟩ =>
    m = ⟨i, t, sp, ep, ps, pe, lv, pid, cs⟩ ∨ memForest m cs

/-- Occurrence (by value) of a node anywhere in a forest. -/
def memForest (m : ManualTOCNode) (ns : List ManualTOCNode) : Prop :=
  match ns with
  | [] => False
  | n :: rest => memNode m n ∨ memForest m rest

end

/-- A chapter of the standard wire-shape TOC (§6): absolute 1-based
pages, recursive subtopics. -/
structure StdNode where
  title : String
  page : Int
  end_page : Int
  subtopics : List StdNode
deriving Repr

mutual

/-- Modelled from the spec: conversion of one manual node to the wire
shape (`convertManualTOCToStandard` in the manual-toc types module, not
among the given sources although its callers are): every page is
translated to an absolute PDF page with `calculatePDFPages` before the
core sees the tree, a missing `endPage` read as the start page. -/
def convertNode (csp : Int) (n : ManualTOCNode) : StdNode :=
  match n with
  | ⟨_, t, sp, ep, _, _, _, _, cs⟩ =>
    ⟨t, calculatePDFPages csp sp, calculatePDFPages csp (ep.getD sp),
      convertForest csp cs⟩

/-- Modelled from the spec: conversion of a manual sibling list. -/
def convertForest (csp : Int) (ns : List ManualTOCNode) : List StdNode :=
  match ns with
  | [] => []
  | n :: rest => convertNode csp n :: convertForest csp rest

end

mutual

/-- Preorder (page, end_page) pairs below one standard node. -/
def stdRangesNode (n : StdNode) : List (Int × Int) :=
  match n with
  | ⟨_, p, ep, cs⟩ => (p, ep) :: stdRanges cs

/-- Preorder (page, end_page) pairs of a standard forest. -/
def stdRanges (ns : List StdNode) : List (Int × Int) :=
  match ns with
  | [] => []
  | n :: rest => stdRangesNode n ++ stdRanges rest

end

mutual

/-- Preorder content-relative (startPage, endPage-or-startPage) pairs
below one manual node. -/
def relRangesNode (n : ManualTOCNode) : List (Int × Int) :=
  match n with
  | ⟨_, _, sp, ep, _, _, _, _, cs⟩ => (sp, ep.getD sp) :: relRanges cs

/-- Preorder content-relative page pairs of a manual forest. -/
def relRanges (ns : List ManualTOCNode) : List (Int × Int) :=
  match ns with
  | [] => []
  | n :: rest => relRangesNode n ++ relRanges rest

end

/-- Witness for `extract_nonempty_and_fallback` at a one-entry outline
and a 42-page document. -/
theorem extract_nonempty_and_fallback_witness :
    (extract [⟨"Ch1", 0, 1⟩] 42 "Doc").chapters.isEmpty = false ∧
    extract [] 42 "Doc" = ⟨[⟨"Doc", "1", 1, some 42, []⟩], 1⟩ :=
  extract_nonempty_and_fallback [⟨"Ch1", 0, 1⟩] 42 "Doc"

/-- Witness for `jobTrace_state_machine` on a successful job with two
progress updates. -/
theorem jobTrace_state_machine_witness :
    ∃ (pre : List SplitJob) (fin : SplitJob),
      jobTrace [40, 80] (.ok "out.zip") = pre ++ [fin] ∧
      List.Chain' statusStep (jobTrace [40, 80] (.ok "out.zip")) ∧
      (fin.status = .completed ∨ fin.status = .failed) ∧
      ∀ x ∈ pre, x.status = .queued ∨ x.status = .inProgress :=
  jobTrace_state_machine [40, 80] (.ok "out.zip")
